import Mathlib

/-!
Verification of `scripts/apply_plan_to_code.py` (state→code sync engine).

The program is shallowly embedded below.  File texts are `List Char`,
byte offsets are `Nat`, decoded JSON values are the inductive `JVal`.
Python's `re` patterns used by the script are fixed and simple; each one
is embedded as an explicit matcher whose behaviour (including the lazy
`.+?\n?` quantifier of the scalar-line pattern and greedy `\s*` runs)
mirrors the `re` engine on these patterns.  Keys and attribute names are
assumed not to begin with blanks (true of every Terraform attribute
name), which lets the `[ \t]*` capture group match greedily without
backtracking.
-/

-- ---------- generic character/list helpers ----------

/-- Python `\s` character class (space, tab, newline, CR, VT, FF). -/
def pySpace (c : Char) : Bool :=
  c = ' ' || c = '\t' || c = '\n' || c = '\r' || c = Char.ofNat 11 || c = Char.ofNat 12

/-- The `[ \t]` class used for indentation in the script's patterns. -/
def indentChar (c : Char) : Bool := c = ' ' || c = '\t'

/-- Length of the longest prefix of `l` whose characters satisfy `p`. -/
def countWhile (p : Char → Bool) : List Char → Nat
  | [] => 0
  | c :: rest => if p c then countWhile p rest + 1 else 0

/-- `startsWithL l pat` : `pat` is a leading prefix of `l`. -/
def startsWithL : List Char → List Char → Bool
  | _, [] => true
  | [], _ :: _ => false
  | c :: cs, p :: ps => c = p && startsWithL cs ps

/-- Python's `pat in s` substring test. -/
def containsL : List Char → List Char → Bool
  | [], pat => pat.isEmpty
  | c :: rest, pat => startsWithL (c :: rest) pat || containsL rest pat

/-- Python's `s.endswith(suf)`. -/
def endsWithL (l suf : List Char) : Bool :=
  decide (suf.length ≤ l.length) && startsWithL (l.drop (l.length - suf.length)) suf

/-- Code-point lexicographic order on character lists (Python `<` on str). -/
def charListLe : List Char → List Char → Bool
  | [], _ => true
  | _ :: _, [] => false
  | a :: as, b :: bs =>
    if a.toNat < b.toNat then true
    else if b.toNat < a.toNat then false
    else charListLe as bs

def strLe (a b : String) : Bool := charListLe a.toList b.toList

/-- Insert into a sorted list (Python `sorted`, stable, code-point order). -/
def insSorted (x : String) : List String → List String
  | [] => [x]
  | y :: ys => if strLe x y then x :: y :: ys else y :: insSorted x ys

def sortStrs (l : List String) : List String := l.foldr insSorted []

/-- Insertion sort of key/value pairs by key (`sorted(d.keys())` plus lookup;
    JSON object keys are unique, so sorting the pairs is the same thing). -/
def insSortedP {α : Type} (x : String × α) : List (String × α) → List (String × α)
  | [] => [x]
  | y :: ys => if strLe x.1 y.1 then x :: y :: ys else y :: insSortedP x ys

def sortPairsByKey {α : Type} (l : List (String × α)) : List (String × α) :=
  l.foldr insSortedP []

/-- `", ".join(parts)`. -/
def joinComma : List (List Char) → List Char
  | [] => []
  | [x] => x
  | x :: y :: rest => x ++ (", ".toList ++ joinComma (y :: rest))

-- ---------- decoded JSON values (output of json.load) ----------

/-- Decoded JSON value.  JSON `null` decodes to Python `None`, represented
    by `jnull`; the script cannot distinguish a missing key from a `null`
    value (`d.get(k, None)`), and neither does the model.  Numbers are
    modelled as integers (no claim involves floats). -/
inductive JVal : Type
  | jnull : JVal
  | jbool : Bool → JVal
  | jnum : Int → JVal
  | jstr : List Char → JVal
  | jlist : List JVal → JVal
  | jdict : List (String × JVal) → JVal

open JVal

/-- First-match association lookup (`dict` keys are unique). -/
def assocGet {α : Type} : List (String × α) → String → Option α
  | [], _ => none
  | (k, v) :: rest, key => if k = key then some v else assocGet rest key

def assocGetD (d : List (String × JVal)) (k : String) : JVal :=
  match assocGet d k with
  | some v => v
  | none => jnull

/-- `d.get(k)` on a decoded value that should be a dict. -/
def jGet : JVal → String → Option JVal
  | jdict d, k => assocGet d k
  | _, _ => none

/-- Python truthiness of a decoded JSON value. -/
def pyTruthy : JVal → Bool
  | jnull => false
  | jbool b => b
  | jnum n => decide (n ≠ 0)
  | jstr s => !s.isEmpty
  | jlist l => !l.isEmpty
  | jdict d => !d.isEmpty

/-- Python `x or y`. -/
def pyOr (x y : JVal) : JVal := if pyTruthy x then x else y

-- Canonical form used to decide Python `==` on decoded JSON: `True == 1`,
-- `False == 0`, and dict comparison ignores key order.
mutual
def canon : JVal → JVal
  | jnull => jnull
  | jbool b => jnum (if b then 1 else 0)
  | jnum n => jnum n
  | jstr s => jstr s
  | jlist xs => jlist (canonList xs)
  | jdict d => jdict (sortPairsByKey (canonKVs d))

def canonList : List JVal → List JVal
  | [] => []
  | x :: xs => canon x :: canonList xs

def canonKVs : List (String × JVal) → List (String × JVal)
  | [] => []
  | (k, v) :: rest => (k, canon v) :: canonKVs rest
end

-- Structural equality test on canonical forms.
mutual
def jbeq : JVal → JVal → Bool
  | jnull, jnull => true
  | jbool a, jbool b => a = b
  | jnum a, jnum b => a = b
  | jstr a, jstr b => a = b
  | jlist a, jlist b => jbeqList a b
  | jdict a, jdict b => jbeqKVs a b
  | _, _ => false

def jbeqList : List JVal → List JVal → Bool
  | [], [] => true
  | x :: xs, y :: ys => jbeq x y && jbeqList xs ys
  | _, _ => false

def jbeqKVs : List (String × JVal) → List (String × JVal) → Bool
  | [], [] => true
  | (k, v) :: xs, (k2, v2) :: ys => k = k2 && jbeq v v2 && jbeqKVs xs ys
  | _, _ => false
end

/-- Python `==` on decoded JSON values. -/
def pyEq (a b : JVal) : Bool := jbeq (canon a) (canon b)

def isNull : JVal → Bool
  | jnull => true
  | _ => false

-- ---------- module constants of the script ----------

/-- `SKIP_ATTRS`: computed attributes never synchronized. -/
def SKIP_ATTRS : List String :=
  ["id", "arn", "owner_id", "primary_network_interface_id", "tags_all"]

/-- `EXPR_SNIPPETS`: markers of expression-driven right-hand sides. -/
def EXPR_SNIPPETS : List (List Char) :=
  ["$\x7b".toList, "var.".toList, "local.".toList, "module.".toList,
   "data.".toList, "path.".toList,
   "lookup(".toList, "merge(".toList, "tolist(".toList, "tomap(".toList,
   "cidrsubnet(".toList, "format(".toList, "join(".toList, "concat(".toList]

/-- `looks_like_expression(s)`: any marker occurs in `s`. -/
def looks_like_expression (s : List Char) : Bool :=
  EXPR_SNIPPETS.any (fun tok => containsL s tok)

-- ---------- value classification ----------

/-- `is_scalar`: str/int/float/bool (bools are scalars; `None` is not). -/
def is_scalar : JVal → Bool
  | jbool _ => true
  | jnum _ => true
  | jstr _ => true
  | _ => false

/-- `is_object_dict`: a dict whose every value is scalar (`all` of an
    empty dict is `True`). -/
def is_object_dict : JVal → Bool
  | jdict d => d.all (fun kv => is_scalar kv.2)
  | _ => false

/-- `is_list_of_scalars` (`all` of an empty list is `True`). -/
def is_list_of_scalars : JVal → Bool
  | jlist l => l.all is_scalar
  | _ => false

/-- `is_list_of_object_dicts` (`all` of an empty list is `True`). -/
def is_list_of_object_dicts : JVal → Bool
  | jlist l => l.all is_object_dict
  | _ => false

-- ---------- serialization (`to_hcl`) ----------

/-- String escaping in `to_hcl`: backslash, quote and newline, applied
    character-wise (the three sequential `replace` calls commute this way
    because replaced characters never reappear in replacements). -/
def escapeChar (c : Char) : List Char :=
  if c = '\\' then ['\\', '\\']
  else if c = '"' then ['\\', '"']
  else if c = '\n' then ['\\', 'n'] else [c]

def escapeStr (s : List Char) : List Char := s.flatMap escapeChar

-- `to_hcl(v)`.  For a dict the script renders `sorted(d.keys())`; the
-- model renders the pairs and then sorts the rendered pairs by key,
-- which is the same text because keys are unique and rendering is pure.
mutual
def to_hcl : JVal → List Char
  | jnull => "\"None\"".toList
  | jbool b => if b then "true".toList else "false".toList
  | jnum n => (toString n).toList
  | jstr s => '"' :: (escapeStr s ++ ['"'])
  | jlist xs => '[' :: (joinComma (to_hclList xs) ++ [']'])
  | jdict d =>
    "\x7b ".toList ++ joinComma ((sortPairsByKey (to_hclKVs d)).map Prod.snd)
      ++ " \x7d".toList

def to_hclList : List JVal → List (List Char)
  | [] => []
  | x :: xs => to_hcl x :: to_hclList xs

def to_hclKVs : List (String × JVal) → List (String × List Char)
  | [] => []
  | (k, v) :: rest => (k, k.toList ++ (" = ".toList ++ to_hcl v)) :: to_hclKVs rest
end

-- ---------- builders ----------

/-- `build_map_attr(indent, attr, d)`. -/
def build_map_attr (indent : List Char) (attr : String) (d : List (String × JVal)) :
    List Char :=
  (indent ++ attr.toList ++ " = \x7b\n".toList)
    ++ (sortPairsByKey d).flatMap
        (fun kv => indent ++ "  ".toList ++ kv.1.toList ++ " = ".toList
                     ++ to_hcl kv.2 ++ ['\n'])
    ++ (indent ++ "\x7d\n".toList)

/-- `build_list_attr(indent, attr, arr)`. -/
def build_list_attr (indent : List Char) (attr : String) (arr : List JVal) :
    List Char :=
  (indent ++ attr.toList ++ " = [\n".toList)
    ++ arr.flatMap (fun v => indent ++ "  ".toList ++ to_hcl v ++ ['\n'])
    ++ (indent ++ "]\n".toList)

/-- `build_unassigned_block(indent, name, obj_dict)`. -/
def build_unassigned_block (indent : List Char) (name : String)
    (obj : List (String × JVal)) : List Char :=
  (indent ++ name.toList ++ " \x7b\n".toList)
    ++ (sortPairsByKey obj).flatMap
        (fun kv => indent ++ "  ".toList ++ kv.1.toList ++ " = ".toList
                     ++ to_hcl kv.2 ++ ['\n'])
    ++ (indent ++ "\x7d\n".toList)

-- ---------- embedded regex matchers ----------

/-- Consume a literal: `some (l.drop pat.length)` when `pat` leads `l`. -/
def eatLit (pat l : List Char) : Option (List Char) :=
  if startsWithL l pat then some (l.drop pat.length) else none

/-- Consume one expected character. -/
def eatChar (c : Char) : List Char → Option (List Char)
  | [] => none
  | x :: rest => if x = c then some rest else none

-- `matchAssignHead name op l`: the head of pattern
-- `^([ \t]*)name\s*=\s*op` matched at a line start `l`; returns the
-- number of characters consumed (= `m.end() - m.start()`), i.e. up to
-- and including the opener.  Greedy `\s*` runs need no backtracking here
-- because `=` and the openers are not `\s` characters.
def matchAssignHead (name : List Char) (op : Char) (l : List Char) : Option Nat :=
  (eatLit name (l.drop (countWhile indentChar l))).bind fun l1 =>
  (eatChar '=' (l1.drop (countWhile pySpace l1))).bind fun l2 =>
  (eatChar op (l2.drop (countWhile pySpace l2))).map fun _ =>
    countWhile indentChar l + name.length + countWhile pySpace l1 + 1
      + countWhile pySpace l2 + 1

-- `matchBlockHead name l`: head of `^([ \t]*)name\s*\x7b` at a line start.
def matchBlockHead (name : List Char) (l : List Char) : Option Nat :=
  (eatLit name (l.drop (countWhile indentChar l))).bind fun l1 =>
  (eatChar '\x7b' (l1.drop (countWhile pySpace l1))).map fun _ =>
    countWhile indentChar l + name.length + countWhile pySpace l1 + 1

/-- Index of the last character of `run` that is not a newline, if any
    (backtracking target of the lazy `.+?` when `\s*` reached the end). -/
def lastNonNl (run : List Char) : Option Nat :=
  match run with
  | [] => none
  | c :: rest =>
    match lastNonNl rest with
    | some j => some (j + 1)
    | none => if c = '\n' then none else some 0

/-- Whether the next unconsumed character is a newline (the greedy `\n?`
    consumes exactly when this holds). -/
def headIsNl : List Char → Bool
  | c :: _ => c = '\n'
  | [] => false

-- `scalarRhs l2`: the characters `\s*.+?\n?` matches at `l2` (the text
-- right after the `=`).  The lazy `.+?` consumes exactly one character
-- and the greedy `\n?` then consumes a directly following newline, if
-- any; when the greedy `\s*` run reaches the end of the text the engine
-- backtracks and `.` consumes the last non-newline whitespace of the run.
def scalarRhs (l2 : List Char) : Option Nat :=
  match l2.drop (countWhile pySpace l2) with
  | _ :: rest =>
    some (if headIsNl rest then countWhile pySpace l2 + 2 else countWhile pySpace l2 + 1)
  | [] =>
    match lastNonNl (l2.take (countWhile pySpace l2)) with
    | none => none
    | some j =>
      some (if headIsNl (l2.drop (j + 1)) then j + 2 else j + 1)

-- `matchScalarLine name l`: the full pattern `^[ \t]*name\s*=\s*.+?\n?`
-- matched at a line start; returns the number of characters matched.
def matchScalarLine (name : List Char) (l : List Char) : Option Nat :=
  (eatLit name (l.drop (countWhile indentChar l))).bind fun l1 =>
  (eatChar '=' (l1.drop (countWhile pySpace l1))).bind fun l2 =>
  (scalarRhs l2).map fun t =>
    countWhile indentChar l + name.length + countWhile pySpace l1 + 1 + t

-- `scanLS f atStart pos l`: leftmost multiline-`^` search: try `f` on
-- every suffix of `l` that begins a line (position 0 and every position
-- directly after a newline), returning the first hit and its position.
def scanLS {α : Type} (f : List Char → Option α) :
    Bool → Nat → List Char → Option (Nat × α)
  | atStart, pos, [] =>
    if atStart then
      match f [] with
      | some a => some (pos, a)
      | none => none
    else none
  | atStart, pos, c :: rest =>
    if atStart then
      match f (c :: rest) with
      | some a => some (pos, a)
      | none => scanLS f (c = '\n') (pos + 1) rest
    else scanLS f (c = '\n') (pos + 1) rest

def lineSearch {α : Type} (f : List Char → Option α) (l : List Char) :
    Option (Nat × α) :=
  scanLS f true 0 l

-- ---------- brace balancing ----------

-- The scan of `find_attr_braced_block` / `find_unassigned_block` /
-- `index_tf_resources`: starting at absolute index `pos` (the opener),
-- walk `while i < be`, incrementing on the opener, decrementing on the
-- closer, returning `i + 1` when the depth reaches zero.
def braceScanAux (op cl : Char) : List Char → Int → Nat → Option Nat
  | [], _, _ => none
  | c :: rest, depth, pos =>
    if c = op then braceScanAux op cl rest (depth + 1) (pos + 1)
    else if c = cl then
      if depth - 1 = 0 then some (pos + 1)
      else braceScanAux op cl rest (depth - 1) (pos + 1)
    else braceScanAux op cl rest depth (pos + 1)

def braceScan (text : List Char) (i be : Nat) (op cl : Char) : Option Nat :=
  braceScanAux op cl ((text.drop i).take (be - i)) 0 i

-- ---------- finders (find / delete existing occurrences) ----------

/-- `find_attr_braced_block(file_text, block_start, block_end, attr,
    opener, closer)`: the span `(span_start, end)` of `attr = op ... cl`
    inside the slice.  The captured indent group is returned by the
    script but never consumed by any caller, so it is omitted here. -/
def find_attr_braced_block (text : List Char) (bs be : Nat) (attr : List Char)
    (op cl : Char) : Option (Nat × Nat) :=
  match lineSearch (matchAssignHead attr op) ((text.drop bs).take (be - bs)) with
  | none => none
  | some (q, n) =>
    match braceScan text (bs + q + n - 1) be op cl with
    | none => none
    | some e => some (bs + q, e)

/-- `find_unassigned_block(file_text, block_start, block_end, name)`. -/
def find_unassigned_block (text : List Char) (bs be : Nat) (name : List Char) :
    Option (Nat × Nat) :=
  match lineSearch (matchBlockHead name) ((text.drop bs).take (be - bs)) with
  | none => none
  | some (q, n) =>
    match braceScan text (bs + q + n - 1) be '\x7b' '\x7d' with
    | none => none
    | some e => some (bs + q, e)

/-- The scalar-line search of the last loop of `delete_attr_occurrences`:
    `pat.search(file_text[block_start:block_end])` with
    `^[ \t]*name\s*=\s*.+?\n?`, returning absolute `(s, e)`. -/
def find_scalar_line (text : List Char) (bs be : Nat) (name : List Char) :
    Option (Nat × Nat) :=
  match lineSearch (matchScalarLine name) ((text.drop bs).take (be - bs)) with
  | none => none
  | some (q, n) => some (bs + q, bs + q + n)

/-- `file_text[:s] + file_text[e:]`. -/
def removeSpan (text : List Char) (s e : Nat) : List Char :=
  text.take s ++ text.drop e

-- ---------- delete_attr_occurrences ----------

-- Each `while True` loop of `delete_attr_occurrences`, written with a
-- fuel parameter over the loop's finder.  Every removal deletes at least
-- one character of the span and shrinks `block_end` by that amount, so a
-- loop makes at most `block_end` iterations; the wrapper passes
-- `block_end + 1` fuel, which therefore never runs out and the fueled
-- loop equals the `while` loop.
def delLoopGen (find1 : List Char → Nat → Nat → Option (Nat × Nat)) :
    Nat → List Char → Nat → Nat → Bool → List Char × Nat × Bool
  | 0, text, _, be, ch => (text, be, ch)
  | fuel + 1, text, bs, be, ch =>
    match find1 text bs be with
    | none => (text, be, ch)
    | some (s, e) => delLoopGen find1 fuel (removeSpan text s e) bs (be - (e - s)) true

/-- `delete_attr_occurrences(file_text, block_start, block_end, name)`:
    removes, in this order, every `name = \x7b...\x7d`, every
    `name = [...]`, every bare `name \x7b...\x7d` block, and every scalar
    `name = ...` line found within the span. -/
def delete_attr_occurrences (text : List Char) (bs be : Nat) (name : List Char) :
    List Char × Nat × Bool :=
  let r1 := delLoopGen (fun t s e => find_attr_braced_block t s e name '\x7b' '\x7d')
    (be + 1) text bs be false
  let r2 := delLoopGen (fun t s e => find_attr_braced_block t s e name '[' ']')
    (r1.2.1 + 1) r1.1 bs r1.2.1 r1.2.2
  let r3 := delLoopGen (fun t s e => find_unassigned_block t s e name)
    (r2.2.1 + 1) r2.1 bs r2.2.1 r2.2.2
  delLoopGen (fun t s e => find_scalar_line t s e name)
    (r3.2.1 + 1) r3.1 bs r3.2.1 r3.2.2

-- ---------- builders & inserters ----------

/-- `resource_base_indent(file_text, block_start, block_end)`: the indent
    captured by `re.match(r'([ \t]*)resource[^\n]*\n', ...)` on the span,
    plus two spaces. -/
def resource_base_indent (text : List Char) (bs be : Nat) : List Char :=
  let slice := (text.drop bs).take (be - bs)
  let w := countWhile indentChar slice
  let rest := slice.drop w
  if startsWithL rest "resource".toList && (rest.drop 8).any (fun c => c = '\n') then
    slice.take w ++ "  ".toList
  else
    "  ".toList

/-- Common splice of all `insert_*` functions:
    `file_text[:block_end-1] + chunk + file_text[block_end-1:]`, with the
    new `block_end` advanced by `len(chunk)`.  (`block_end ≥ 1` in every
    run, since a located span ends one past its closing brace.) -/
def spliceChunk (text : List Char) (be : Nat) (chunk : List Char) :
    List Char × Nat × Bool :=
  (text.take (be - 1) ++ chunk ++ text.drop (be - 1), be + chunk.length, true)

/-- `insert_scalar(file_text, block_start, block_end, attr, val)`. -/
def insert_scalar (text : List Char) (bs be : Nat) (attr : String) (val : JVal) :
    List Char × Nat × Bool :=
  let indent := resource_base_indent text bs be
  spliceChunk text be ('\n' :: (indent ++ attr.toList ++ " = ".toList ++ to_hcl val ++ ['\n']))

/-- `insert_map(file_text, block_start, block_end, attr, d)` (empty dict:
    no-op returning `False`). -/
def insert_map (text : List Char) (bs be : Nat) (attr : String)
    (d : List (String × JVal)) : List Char × Nat × Bool :=
  if d.isEmpty then (text, be, false)
  else
    let indent := resource_base_indent text bs be
    spliceChunk text be ('\n' :: build_map_attr indent attr d)

/-- `insert_list(file_text, block_start, block_end, attr, arr)` (empty
    list: no-op returning `False`). -/
def insert_list (text : List Char) (bs be : Nat) (attr : String)
    (arr : List JVal) : List Char × Nat × Bool :=
  if arr.isEmpty then (text, be, false)
  else
    let indent := resource_base_indent text bs be
    spliceChunk text be ('\n' :: build_list_attr indent attr arr)

/-- The dict payload of a value already known to be an object dict. -/
def dictKVs : JVal → List (String × JVal)
  | jdict d => d
  | _ => []

/-- `insert_block_object(file_text, block_start, block_end, name, obj)`. -/
def insert_block_object (text : List Char) (bs be : Nat) (name : String)
    (obj : List (String × JVal)) : List Char × Nat × Bool :=
  if obj.isEmpty then (text, be, false)
  else
    let indent := resource_base_indent text bs be
    spliceChunk text be ('\n' :: build_unassigned_block indent name obj)

/-- `insert_block_list(file_text, block_start, block_end, name, objs)`. -/
def insert_block_list (text : List Char) (bs be : Nat) (name : String)
    (objs : List JVal) : List Char × Nat × Bool :=
  if objs.isEmpty then (text, be, false)
  else
    let indent := resource_base_indent text bs be
    spliceChunk text be
      (objs.flatMap (fun obj => '\n' :: build_unassigned_block indent name (dictKVs obj)))

-- ---------- choose which keys to sync ----------

/-- The per-key predicate of `keys_to_sync`: not a computed attribute,
    not unknown-after-apply (`a_unknown.get(k) is True`), actually
    differing, and of a printable shape or absent-in-state. -/
def syncKeyPred (b a : List (String × JVal)) (unk : JVal) (k : String) : Bool :=
  if SKIP_ATTRS.contains k then false
  else if (match jGet unk k with
           | some (jbool true) => true
           | _ => false) then false
  else if pyEq (assocGetD b k) (assocGetD a k) then false
  else if is_scalar (assocGetD b k) || is_object_dict (assocGetD b k)
          || is_list_of_scalars (assocGetD b k)
          || is_list_of_object_dicts (assocGetD b k) then true
  else if isNull (assocGetD b k) && !(isNull (assocGetD a k)) then true
  else false

/-- `keys_to_sync(before, after, after_unknown)`: the set of keys to
    synchronize, as a duplicate-free list over
    `set(before.keys()) | set(after.keys())`; empty if either argument is
    not a dict.  `a_unknown = after_unknown or \x7b\x7d` is applied to
    the mask. -/
def keys_to_sync (before after after_unknown : JVal) : List String :=
  match before, after with
  | jdict b, jdict a =>
    ((b.map Prod.fst ++ a.map Prod.fst).dedup).filter
      (syncKeyPred b a (pyOr after_unknown (jdict [])))
  | _, _ => []

-- ---------- resource index ----------

/-- A located resource span: file path, byte start, byte end (one past
    the balanced closing brace).  `stop` stands for the script's `end`
    (a Lean keyword). -/
structure Span where
  path : String
  start : Nat
  stop : Nat

/-- Head of the pattern `resource\s+"([^"]+)"\s+"([^"]+)"\s*\x7b` matched
    at the current position; returns the two capture groups and the match
    length.  The greedy `[^"]+` runs to the next quote and `\s+`/`\s*`
    need no backtracking because `"` and `\x7b` are not `\s`. -/
def matchResourceHeader (l : List Char) : Option (List Char × List Char × Nat) :=
  if startsWithL l "resource".toList then
    let l1 := l.drop 8
    let s1 := countWhile pySpace l1
    if s1 = 0 then none
    else
      match l1.drop s1 with
      | '"' :: l2 =>
        let t := l2.takeWhile (fun c => c ≠ '"')
        if t.isEmpty then none
        else
          match l2.drop t.length with
          | '"' :: l3 =>
            let s2 := countWhile pySpace l3
            if s2 = 0 then none
            else
              match l3.drop s2 with
              | '"' :: l4 =>
                let n := l4.takeWhile (fun c => c ≠ '"')
                if n.isEmpty then none
                else
                  match l4.drop n.length with
                  | '"' :: l5 =>
                    let s3 := countWhile pySpace l5
                    match l5.drop s3 with
                    | '\x7b' :: _ =>
                      some (t, n,
                        8 + s1 + 1 + t.length + 1 + s2 + 1 + n.length + 1 + s3 + 1)
                    | _ => none
                  | _ => none
              | _ => none
          | _ => none
      | _ => none
  else none

/-- `re.finditer` over the resource-header pattern: leftmost matches,
    scanning resuming after each match end.  Returns
    `(type, name, m.start(), m.end())` for each match. -/
def findHeaders : Nat → Nat → List Char → List (List Char × List Char × Nat × Nat)
  | 0, _, _ => []
  | _ + 1, _, [] => []
  | fuel + 1, pos, c :: rest =>
    match matchResourceHeader (c :: rest) with
    | some (t, n, mlen) =>
      (t, n, pos, pos + mlen) :: findHeaders fuel (pos + mlen) ((c :: rest).drop mlen)
    | none => findHeaders fuel (pos + 1) rest

/-- `idx.setdefault(key, []).append(span)`. -/
def idxInsert (idx : List ((String × String) × List Span)) (key : String × String)
    (sp : Span) : List ((String × String) × List Span) :=
  match idx with
  | [] => [(key, [sp])]
  | (k, sps) :: rest =>
    if k = key then (k, sps ++ [sp]) :: rest else (k, sps) :: idxInsert rest key sp

def idxLookup (idx : List ((String × String) × List Span)) (key : String × String) :
    List Span :=
  match idx with
  | [] => []
  | (k, sps) :: rest => if k = key then sps else idxLookup rest key

/-- `index_tf_resources()`: for every `*.tf` file, find each resource
    header, balance braces from the header's opening brace to the end of
    file, and record the span; unbalanced headers are dropped. -/
def index_tf_resources (fs : List (String × List Char)) :
    List ((String × String) × List Span) :=
  fs.foldl
    (fun idx file =>
      if endsWithL file.1.toList ".tf".toList then
        (findHeaders file.2.length 0 file.2).foldl
          (fun idx h =>
            match braceScan file.2 (h.2.2.2 - 1) file.2.length '\x7b' '\x7d' with
            | some e =>
              idxInsert idx (String.mk h.1, String.mk h.2.1)
                ⟨file.1, h.2.2.1, e⟩
            | none => idx)
          idx
      else idx)
    []

-- ---------- main ----------

/-- One record of `plan["resource_changes"]`. -/
structure RC where
  rtype : String
  rname : String
  address : String
  actions : List String
  before : JVal
  after : JVal
  after_unknown : JVal

/-- Run state: the filesystem (path → text), `changes_applied`, the log
    lines in emission order, and the file writes in execution order. -/
structure RunState where
  fs : List (String × List Char)
  applied : Nat
  logs : List String
  writes : List String

def fsRead (fs : List (String × List Char)) (p : String) : Option (List Char) :=
  match fs with
  | [] => none
  | (q, t) :: rest => if q = p then some t else fsRead rest p

def fsWrite (fs : List (String × List Char)) (p : String) (t : List Char) :
    List (String × List Char) :=
  match fs with
  | [] => [(p, t)]
  | (q, old) :: rest => if q = p then (q, t) :: rest else (q, old) :: fsWrite rest p t

def prefer_map_names : List String := ["tags", "labels", "metadata", "tags_map"]

/-- Python `repr` of a list of plain strings, as interpolated into the
    multiple-matches skip message. -/
def pyReprStrList (ps : List String) : String :=
  "[" ++ String.intercalate ", " (ps.map (fun p => "\x27" ++ p ++ "\x27")) ++ "]"

/-- The body of `main`'s `for k in sorted(keys)` loop: delete all
    occurrences (the deletion's change flag is discarded, as in the
    script), then dispatch on the shape of the live value.  State:
    `(file_text, block_end, any_changed, logs)`. -/
def syncOneKey (address : String) (bs : Nat) (before : List (String × JVal))
    (st : List Char × Nat × Bool × List String) (k : String) :
    List Char × Nat × Bool × List String :=
  let text := st.1
  let be := st.2.1
  let anyCh := st.2.2.1
  let logs := st.2.2.2
  let d := delete_attr_occurrences text bs be k.toList
  let text := d.1
  let be := d.2.1
  let val := assocGetD before k
  if isNull val then
    (text, be, true, logs ++ [address ++ ": REMOVE " ++ k ++ " (absent in state)"])
  else if is_object_dict val then
    let r := insert_block_object text bs be k (dictKVs val)
    (r.1, r.2.1, anyCh || r.2.2, logs ++ [address ++ ": SYNC " ++ k ++ " (block)"])
  else if is_list_of_object_dicts val then
    let r := insert_block_list text bs be k
      (match val with | jlist xs => xs | _ => [])
    (r.1, r.2.1, anyCh || r.2.2, logs ++ [address ++ ": SYNC " ++ k ++ " (blocks list)"])
  else if is_list_of_scalars val then
    let r := insert_list text bs be k
      (match val with | jlist xs => xs | _ => [])
    (r.1, r.2.1, anyCh || r.2.2, logs ++ [address ++ ": SYNC " ++ k ++ " (list)"])
  else if (match val with | jdict _ => true | _ => false) then
    let preferBlock := endsWithL k.toList "_configuration".toList
      || is_object_dict val || is_list_of_object_dicts val
    let preferMap := prefer_map_names.contains k
      || ((match val with | jdict _ => true | _ => false) && !preferBlock)
    if preferBlock && !preferMap then
      let r := insert_block_object text bs be k (dictKVs val)
      (r.1, r.2.1, anyCh || r.2.2,
        logs ++ [address ++ ": SYNC " ++ k ++ " (block-from-dict)"])
    else
      let r := insert_map text bs be k (dictKVs val)
      (r.1, r.2.1, anyCh || r.2.2, logs ++ [address ++ ": SYNC " ++ k ++ " (map)"])
  else if is_scalar val then
    let r := insert_scalar text bs be k val
    (r.1, r.2.1, anyCh || r.2.2, logs ++ [address ++ ": SYNC " ++ k ++ " (scalar)"])
  else
    (text, be, true, logs ++ [address ++ ": REMOVE " ++ k ++ " (unsupported type)"])

/-- The single-match tail of `main`'s loop body: read the matched file
    (a missing path standing for the script's unreadable-file skip), fold
    the per-key edits over the sorted sync keys, and — only if some key
    reported a change — write the file back, bump `changes_applied` and
    record the write.  The underlying OSError text appended by the script
    to the skip line is not modelled. -/
def processEntry (address : String) (beforeD : List (String × JVal))
    (keys : List String) (entry : Span) (st : RunState) : RunState :=
  match fsRead st.fs entry.path with
  | none =>
    { st with logs := st.logs
        ++ ["SKIP " ++ address ++ ": cannot read " ++ entry.path] }
  | some text =>
    if ((sortStrs keys).foldl (syncOneKey address entry.start beforeD)
          (text, entry.stop, false, st.logs)).2.2.1 then
      { fs := fsWrite st.fs entry.path
          ((sortStrs keys).foldl (syncOneKey address entry.start beforeD)
            (text, entry.stop, false, st.logs)).1,
        applied := st.applied + 1,
        logs := ((sortStrs keys).foldl (syncOneKey address entry.start beforeD)
          (text, entry.stop, false, st.logs)).2.2.2,
        writes := st.writes ++ [entry.path] }
    else
      { st with logs := ((sortStrs keys).foldl (syncOneKey address entry.start beforeD)
          (text, entry.stop, false, st.logs)).2.2.2 }

/-- One iteration of `main`'s loop over `plan["resource_changes"]`. -/
def processResource (idx : List ((String × String) × List Span))
    (st : RunState) (rc : RC) : RunState :=
  if !(rc.actions.contains "update") then st
  else if (keys_to_sync (pyOr rc.before (jdict [])) (pyOr rc.after (jdict []))
      (pyOr rc.after_unknown (jdict []))).isEmpty then st
  else
    match idxLookup idx (rc.rtype, rc.rname) with
    | [] =>
      { st with logs := st.logs
          ++ ["SKIP " ++ rc.address ++ ": resource not found in code"] }
    | [entry] =>
      processEntry rc.address (dictKVs (pyOr rc.before (jdict [])))
        (keys_to_sync (pyOr rc.before (jdict [])) (pyOr rc.after (jdict []))
          (pyOr rc.after_unknown (jdict [])))
        entry st
    | e1 :: e2 :: rest =>
      { st with logs := st.logs
          ++ ["SKIP " ++ rc.address ++ ": multiple code matches "
                ++ pyReprStrList ((e1 :: e2 :: rest).map Span.path)] }

theorem processResource_no_update {idx : List ((String × String) × List Span)}
    {st : RunState} {rc : RC} (h : rc.actions.contains "update" = false) :
    processResource idx st rc = st := by
  unfold processResource
  rw [h]
  rfl

theorem processResource_keys_empty {idx : List ((String × String) × List Span)}
    {st : RunState} {rc : RC} (h : rc.actions.contains "update" = true)
    (hk : (keys_to_sync (pyOr rc.before (jdict [])) (pyOr rc.after (jdict []))
      (pyOr rc.after_unknown (jdict []))).isEmpty = true) :
    processResource idx st rc = st := by
  unfold processResource
  rw [h, hk]
  rfl

theorem processResource_not_found {idx : List ((String × String) × List Span)}
    {st : RunState} {rc : RC} (h : rc.actions.contains "update" = true)
    (hk : (keys_to_sync (pyOr rc.before (jdict [])) (pyOr rc.after (jdict []))
      (pyOr rc.after_unknown (jdict []))).isEmpty = false)
    (hm : idxLookup idx (rc.rtype, rc.rname) = []) :
    processResource idx st rc
      = { st with logs := st.logs
            ++ ["SKIP " ++ rc.address ++ ": resource not found in code"] } := by
  unfold processResource
  rw [h, hk, hm]
  rfl

theorem processResource_single {idx : List ((String × String) × List Span)}
    {st : RunState} {rc : RC} {entry : Span}
    (h : rc.actions.contains "update" = true)
    (hk : (keys_to_sync (pyOr rc.before (jdict [])) (pyOr rc.after (jdict []))
      (pyOr rc.after_unknown (jdict []))).isEmpty = false)
    (hm : idxLookup idx (rc.rtype, rc.rname) = [entry]) :
    processResource idx st rc
      = processEntry rc.address (dictKVs (pyOr rc.before (jdict [])))
          (keys_to_sync (pyOr rc.before (jdict [])) (pyOr rc.after (jdict []))
            (pyOr rc.after_unknown (jdict [])))
          entry st := by
  unfold processResource
  rw [h, hk, hm]
  rfl

theorem processResource_multi {idx : List ((String × String) × List Span)}
    {st : RunState} {rc : RC} {e1 e2 : Span} {rest : List Span}
    (h : rc.actions.contains "update" = true)
    (hk : (keys_to_sync (pyOr rc.before (jdict [])) (pyOr rc.after (jdict []))
      (pyOr rc.after_unknown (jdict []))).isEmpty = false)
    (hm : idxLookup idx (rc.rtype, rc.rname) = e1 :: e2 :: rest) :
    processResource idx st rc
      = { st with logs := st.logs
            ++ ["SKIP " ++ rc.address ++ ": multiple code matches "
                  ++ pyReprStrList ((e1 :: e2 :: rest).map Span.path)] } := by
  unfold processResource
  rw [h, hk, hm]
  rfl

theorem processEntry_read_none {address : String} {beforeD : List (String × JVal)}
    {keys : List String} {entry : Span} {st : RunState}
    (hr : fsRead st.fs entry.path = none) :
    processEntry address beforeD keys entry st
      = { st with logs := st.logs
            ++ ["SKIP " ++ address ++ ": cannot read " ++ entry.path] } := by
  unfold processEntry
  rw [hr]

theorem processEntry_read_some {address : String} {beforeD : List (String × JVal)}
    {keys : List String} {entry : Span} {st : RunState} {text : List Char}
    (hr : fsRead st.fs entry.path = some text) :
    processEntry address beforeD keys entry st
      = (if ((sortStrs keys).foldl (syncOneKey address entry.start beforeD)
              (text, entry.stop, false, st.logs)).2.2.1 then
          { fs := fsWrite st.fs entry.path
              ((sortStrs keys).foldl (syncOneKey address entry.start beforeD)
                (text, entry.stop, false, st.logs)).1,
            applied := st.applied + 1,
            logs := ((sortStrs keys).foldl (syncOneKey address entry.start beforeD)
              (text, entry.stop, false, st.logs)).2.2.2,
            writes := st.writes ++ [entry.path] }
        else
          { st with logs := ((sortStrs keys).foldl
              (syncOneKey address entry.start beforeD)
              (text, entry.stop, false, st.logs)).2.2.2 }) := by
  unfold processEntry
  rw [hr]

/-- `main`: index the tree once, then fold the change records.  The
    summary lines only echo `applied` and the sorted `writes`, so they
    are not materialized separately. -/
def runMain (plan : List RC) (fs : List (String × List Char)) : RunState :=
  let idx := index_tf_resources fs
  plan.foldl (processResource idx) ⟨fs, 0, [], []⟩

-- ---------- bounds of the embedded matchers ----------

theorem countWhile_le (p : Char → Bool) (l : List Char) : countWhile p l ≤ l.length := by
  induction l with
  | nil => simp [countWhile]
  | cons c rest ih =>
    simp only [countWhile, List.length_cons]
    split
    · omega
    · omega

theorem startsWithL_le {l p : List Char} (h : startsWithL l p = true) :
    p.length ≤ l.length := by
  induction l generalizing p with
  | nil =>
    cases p with
    | nil => simp
    | cons a as => simp [startsWithL] at h
  | cons c cs ih =>
    cases p with
    | nil => simp
    | cons a as =>
      simp only [startsWithL, Bool.and_eq_true] at h
      have := ih h.2
      simp only [List.length_cons]
      omega

theorem eatLit_some {pat l l1 : List Char} (h : eatLit pat l = some l1) :
    l1.length + pat.length = l.length := by
  unfold eatLit at h
  split at h
  · rename_i hpre
    have hle := startsWithL_le hpre
    injection h with h
    subst h
    simp
    omega
  · exact absurd h (by simp)

theorem eatChar_some {c : Char} {l rest : List Char} (h : eatChar c l = some rest) :
    l = c :: rest := by
  cases l with
  | nil => simp [eatChar] at h
  | cons x xs =>
    simp only [eatChar] at h
    split at h
    · rename_i hx
      injection h with h
      subst hx
      subst h
      rfl
    · exact absurd h (by simp)

theorem lastNonNl_lt {run : List Char} {j : Nat} (h : lastNonNl run = some j) :
    j < run.length := by
  induction run generalizing j with
  | nil => simp [lastNonNl] at h
  | cons c rest ih =>
    rw [lastNonNl] at h
    cases hr : lastNonNl rest with
    | some j0 =>
      rw [hr] at h
      simp only [Option.some.injEq] at h
      have := ih hr
      simp only [List.length_cons]
      omega
    | none =>
      rw [hr] at h
      simp only [] at h
      split at h
      · exact absurd h (by simp)
      · simp only [Option.some.injEq] at h
        simp only [List.length_cons]
        omega

theorem headIsNl_length {l : List Char} (h : headIsNl l = true) : 1 ≤ l.length := by
  cases l with
  | nil => simp [headIsNl] at h
  | cons c rest => simp

theorem scalarRhs_le {l2 : List Char} {t : Nat} (h : scalarRhs l2 = some t) :
    1 ≤ t ∧ t ≤ l2.length := by
  unfold scalarRhs at h
  have hs2 : countWhile pySpace l2 ≤ l2.length := countWhile_le _ _
  cases hd : l2.drop (countWhile pySpace l2) with
  | cons c0 rest =>
    rw [hd] at h
    simp only [Option.some.injEq] at h
    have hl : l2.length - countWhile pySpace l2 = rest.length + 1 := by
      have := congrArg List.length hd
      simp at this
      omega
    by_cases hnl : headIsNl rest = true
    · rw [hnl] at h
      simp only [if_true] at h
      have := headIsNl_length hnl
      omega
    · rw [Bool.not_eq_true] at hnl
      rw [hnl] at h
      simp only [Bool.false_eq_true, if_false] at h
      omega
  | nil =>
    rw [hd] at h
    simp only [] at h
    cases hj : lastNonNl (l2.take (countWhile pySpace l2)) with
    | none => rw [hj] at h; exact absurd h (by simp)
    | some j =>
      rw [hj] at h
      simp only [Option.some.injEq] at h
      have hjlt := lastNonNl_lt hj
      simp only [List.length_take] at hjlt
      have hjl2 : j < l2.length := by omega
      by_cases hnl : headIsNl (l2.drop (j + 1)) = true
      · rw [hnl] at h
        simp only [if_true] at h
        have h1 := headIsNl_length hnl
        simp only [List.length_drop] at h1
        omega
      · rw [Bool.not_eq_true] at hnl
        rw [hnl] at h
        simp only [Bool.false_eq_true, if_false] at h
        omega

theorem matchAssignHead_le {name : List Char} {op : Char} {l : List Char} {n : Nat}
    (h : matchAssignHead name op l = some n) : 1 ≤ n ∧ n ≤ l.length := by
  unfold matchAssignHead at h
  rw [Option.bind_eq_some] at h
  obtain ⟨l1, h1, h⟩ := h
  rw [Option.bind_eq_some] at h
  obtain ⟨l2, h2, h⟩ := h
  rw [Option.map_eq_some'] at h
  obtain ⟨l3, h3, h⟩ := h
  subst h
  have e1 := eatLit_some h1
  have e2 := congrArg List.length (eatChar_some h2)
  have e3 := congrArg List.length (eatChar_some h3)
  simp only [List.length_cons, List.length_drop] at e1 e2 e3
  have d0 : countWhile indentChar l ≤ l.length := countWhile_le _ _
  have d1 : countWhile pySpace l1 ≤ l1.length := countWhile_le _ _
  have d2 : countWhile pySpace l2 ≤ l2.length := countWhile_le _ _
  omega

theorem matchBlockHead_le {name : List Char} {l : List Char} {n : Nat}
    (h : matchBlockHead name l = some n) : 1 ≤ n ∧ n ≤ l.length := by
  unfold matchBlockHead at h
  rw [Option.bind_eq_some] at h
  obtain ⟨l1, h1, h⟩ := h
  rw [Option.map_eq_some'] at h
  obtain ⟨l2, h2, h⟩ := h
  subst h
  have e1 := eatLit_some h1
  have e2 := congrArg List.length (eatChar_some h2)
  simp only [List.length_cons, List.length_drop] at e1 e2
  have d0 : countWhile indentChar l ≤ l.length := countWhile_le _ _
  have d1 : countWhile pySpace l1 ≤ l1.length := countWhile_le _ _
  omega

theorem matchScalarLine_le {name : List Char} {l : List Char} {n : Nat}
    (h : matchScalarLine name l = some n) : 1 ≤ n ∧ n ≤ l.length := by
  unfold matchScalarLine at h
  rw [Option.bind_eq_some] at h
  obtain ⟨l1, h1, h⟩ := h
  rw [Option.bind_eq_some] at h
  obtain ⟨l2, h2, h⟩ := h
  rw [Option.map_eq_some'] at h
  obtain ⟨t, h3, h⟩ := h
  subst h
  have e1 := eatLit_some h1
  have e2 := congrArg List.length (eatChar_some h2)
  have e3 := scalarRhs_le h3
  simp only [List.length_cons, List.length_drop] at e1 e2
  have d0 : countWhile indentChar l ≤ l.length := countWhile_le _ _
  have d1 : countWhile pySpace l1 ≤ l1.length := countWhile_le _ _
  omega

theorem scanLS_spec {α : Type} (f : List Char → Option α) :
    ∀ (l : List Char) (b : Bool) (pos q : Nat) (a : α),
      scanLS f b pos l = some (q, a) →
      pos ≤ q ∧ q - pos ≤ l.length ∧ f (l.drop (q - pos)) = some a := by
  intro l
  induction l with
  | nil =>
    intro b pos q a h
    unfold scanLS at h
    split at h
    · cases hf : f [] with
      | some a0 =>
        rw [hf] at h
        simp only [Option.some.injEq, Prod.mk.injEq] at h
        obtain ⟨hq, ha⟩ := h
        subst hq
        subst ha
        simpa using hf
      | none => rw [hf] at h; exact absurd h (by simp)
    · exact absurd h (by simp)
  | cons c rest ih =>
    intro b pos q a h
    unfold scanLS at h
    split at h
    · cases hf : f (c :: rest) with
      | some a0 =>
        rw [hf] at h
        simp only [Option.some.injEq, Prod.mk.injEq] at h
        obtain ⟨hq, ha⟩ := h
        subst hq
        subst ha
        simpa using hf
      | none =>
        rw [hf] at h
        have := ih (c = '\n') (pos + 1) q a h
        obtain ⟨h1, h2, h3⟩ := this
        refine ⟨by omega, by simp only [List.length_cons]; omega, ?_⟩
        have hq : q - pos = (q - (pos + 1)) + 1 := by omega
        rw [hq, List.drop_succ_cons]
        exact h3
    · have := ih (c = '\n') (pos + 1) q a h
      obtain ⟨h1, h2, h3⟩ := this
      refine ⟨by omega, by simp only [List.length_cons]; omega, ?_⟩
      have hq : q - pos = (q - (pos + 1)) + 1 := by omega
      rw [hq, List.drop_succ_cons]
      exact h3

theorem lineSearch_spec {α : Type} {f : List Char → Option α} {l : List Char}
    {q : Nat} {a : α} (h : lineSearch f l = some (q, a)) :
    q ≤ l.length ∧ f (l.drop q) = some a := by
  have := scanLS_spec f l true 0 q a h
  simpa using this

theorem braceScanAux_le {op cl : Char} :
    ∀ (l : List Char) (depth : Int) (pos e : Nat),
      braceScanAux op cl l depth pos = some e → pos < e ∧ e ≤ pos + l.length := by
  intro l
  induction l with
  | nil => intro depth pos e h; simp [braceScanAux] at h
  | cons c rest ih =>
    intro depth pos e h
    unfold braceScanAux at h
    split at h
    · have := ih (depth + 1) (pos + 1) e h
      simp only [List.length_cons]
      omega
    · split at h
      · split at h
        · simp only [Option.some.injEq] at h
          simp only [List.length_cons]
          omega
        · have := ih (depth - 1) (pos + 1) e h
          simp only [List.length_cons]
          omega
      · have := ih depth (pos + 1) e h
        simp only [List.length_cons]
        omega

theorem braceScan_le {text : List Char} {i be e : Nat} {op cl : Char}
    (h : braceScan text i be op cl = some e) : i < e ∧ e ≤ i + (be - i) := by
  have := braceScanAux_le ((text.drop i).take (be - i)) 0 i e h
  simp only [List.length_take, List.length_drop] at this
  omega

-- ---------- bounds of the three finders ----------

theorem find_attr_braced_block_bounds {text : List Char} {bs be : Nat}
    {attr : List Char} {op cl : Char} {s e : Nat}
    (h : find_attr_braced_block text bs be attr op cl = some (s, e)) :
    bs ≤ s ∧ s < e ∧ e ≤ be := by
  unfold find_attr_braced_block at h
  cases h1 : lineSearch (matchAssignHead attr op) ((text.drop bs).take (be - bs)) with
  | none => rw [h1] at h; exact absurd h (by simp)
  | some qa =>
    rw [h1] at h
    obtain ⟨q, n⟩ := qa
    simp only [] at h
    cases h2 : braceScan text (bs + q + n - 1) be op cl with
    | none => rw [h2] at h; exact absurd h (by simp)
    | some e0 =>
      rw [h2] at h
      simp only [Option.some.injEq, Prod.mk.injEq] at h
      obtain ⟨hs, he⟩ := h
      subst hs
      subst he
      obtain ⟨hq, hf⟩ := lineSearch_spec h1
      obtain ⟨hn1, hn2⟩ := matchAssignHead_le hf
      simp only [List.length_drop, List.length_take, List.length_drop] at hn2 hq
      obtain ⟨hb1, hb2⟩ := braceScan_le h2
      have hslice : ((text.drop bs).take (be - bs)).length ≤ be - bs := by
        simp only [List.length_take, List.length_drop]
        omega
      simp only [List.length_take, List.length_drop] at hslice
      constructor
      · omega
      constructor
      · omega
      · omega

theorem find_unassigned_block_bounds {text : List Char} {bs be : Nat}
    {name : List Char} {s e : Nat}
    (h : find_unassigned_block text bs be name = some (s, e)) :
    bs ≤ s ∧ s < e ∧ e ≤ be := by
  unfold find_unassigned_block at h
  cases h1 : lineSearch (matchBlockHead name) ((text.drop bs).take (be - bs)) with
  | none => rw [h1] at h; exact absurd h (by simp)
  | some qa =>
    rw [h1] at h
    obtain ⟨q, n⟩ := qa
    simp only [] at h
    cases h2 : braceScan text (bs + q + n - 1) be '\x7b' '\x7d' with
    | none => rw [h2] at h; exact absurd h (by simp)
    | some e0 =>
      rw [h2] at h
      simp only [Option.some.injEq, Prod.mk.injEq] at h
      obtain ⟨hs, he⟩ := h
      subst hs
      subst he
      obtain ⟨hq, hf⟩ := lineSearch_spec h1
      obtain ⟨hn1, hn2⟩ := matchBlockHead_le hf
      simp only [List.length_drop, List.length_take, List.length_drop] at hn2 hq
      obtain ⟨hb1, hb2⟩ := braceScan_le h2
      constructor
      · omega
      constructor
      · omega
      · omega

theorem find_scalar_line_bounds {text : List Char} {bs be : Nat}
    {name : List Char} {s e : Nat}
    (h : find_scalar_line text bs be name = some (s, e)) :
    bs ≤ s ∧ s < e ∧ e ≤ be := by
  unfold find_scalar_line at h
  cases h1 : lineSearch (matchScalarLine name) ((text.drop bs).take (be - bs)) with
  | none => rw [h1] at h; exact absurd h (by simp)
  | some qa =>
    rw [h1] at h
    obtain ⟨q, n⟩ := qa
    simp only [Option.some.injEq, Prod.mk.injEq] at h
    obtain ⟨hs, he⟩ := h
    subst hs
    subst he
    obtain ⟨hq, hf⟩ := lineSearch_spec h1
    obtain ⟨hn1, hn2⟩ := matchScalarLine_le hf
    simp only [List.length_drop, List.length_take, List.length_drop] at hn2 hq
    constructor
    · omega
    constructor
    · omega
    · omega

-- ---------- frame lemmas for span removal and insertion ----------

theorem removeSpan_take {text : List Char} {bs s e : Nat}
    (hbs : bs ≤ s) (hsl : s ≤ text.length) :
    (removeSpan text s e).take bs = text.take bs := by
  unfold removeSpan
  rw [List.take_append_eq_append_take]
  have h1 : (text.take s).take bs = text.take bs := by
    rw [List.take_take]
    congr 1
    omega
  have h2 : bs - (text.take s).length = 0 := by
    simp only [List.length_take]
    omega
  rw [h1, h2]
  simp

theorem removeSpan_drop {text : List Char} {s e be : Nat}
    (hse : s ≤ e) (hbe : e ≤ be) (hlen : be ≤ text.length) :
    (removeSpan text s e).drop (be - (e - s)) = text.drop be := by
  unfold removeSpan
  rw [List.drop_append_eq_append_drop]
  have hs : (text.take s).length = s := by
    simp only [List.length_take]
    omega
  have h1 : (text.take s).drop (be - (e - s)) = [] := by
    apply List.drop_eq_nil_of_le
    rw [hs]
    omega
  rw [h1, hs]
  have h2 : be - (e - s) - s = be - e := by omega
  rw [h2, List.drop_drop]
  have h3 : e + (be - e) = be := by omega
  rw [h3]
  simp

theorem removeSpan_length {text : List Char} {s e : Nat}
    (hse : s ≤ e) (he : e ≤ text.length) :
    (removeSpan text s e).length = text.length - (e - s) := by
  unfold removeSpan
  simp only [List.length_append, List.length_take, List.length_drop]
  omega

theorem delLoopGen_succ_none {find1 : List Char → Nat → Nat → Option (Nat × Nat)}
    {fuel : Nat} {text : List Char} {bs be : Nat} {ch : Bool}
    (hf : find1 text bs be = none) :
    delLoopGen find1 (fuel + 1) text bs be ch = (text, be, ch) := by
  unfold delLoopGen
  rw [hf]

theorem delLoopGen_succ_some {find1 : List Char → Nat → Nat → Option (Nat × Nat)}
    {fuel : Nat} {text : List Char} {bs be : Nat} {ch : Bool} {s e : Nat}
    (hf : find1 text bs be = some (s, e)) :
    delLoopGen find1 (fuel + 1) text bs be ch
      = delLoopGen find1 fuel (removeSpan text s e) bs (be - (e - s)) true := by
  conv => lhs; unfold delLoopGen
  rw [hf]

theorem delLoopGen_frame (find1 : List Char → Nat → Nat → Option (Nat × Nat))
    (hfind : ∀ (t : List Char) (bs be s e : Nat),
      find1 t bs be = some (s, e) → bs ≤ s ∧ s < e ∧ e ≤ be) :
    ∀ (fuel : Nat) (text : List Char) (bs be : Nat) (ch : Bool),
      be ≤ text.length →
      (delLoopGen find1 fuel text bs be ch).1.take bs = text.take bs ∧
      (delLoopGen find1 fuel text bs be ch).1.drop
        (delLoopGen find1 fuel text bs be ch).2.1 = text.drop be ∧
      (delLoopGen find1 fuel text bs be ch).2.1 ≤ be ∧
      (delLoopGen find1 fuel text bs be ch).1.length + be
        = text.length + (delLoopGen find1 fuel text bs be ch).2.1 ∧
      (delLoopGen find1 fuel text bs be ch).2.1
        ≤ (delLoopGen find1 fuel text bs be ch).1.length := by
  intro fuel
  induction fuel with
  | zero =>
    intro text bs be ch hlen
    exact ⟨rfl, rfl, le_refl _, rfl, hlen⟩
  | succ n ih =>
    intro text bs be ch hlen
    cases hf : find1 text bs be with
    | none =>
      rw [delLoopGen_succ_none hf]
      exact ⟨rfl, rfl, le_refl _, rfl, hlen⟩
    | some se =>
      obtain ⟨s, e⟩ := se
      rw [delLoopGen_succ_some hf]
      obtain ⟨hbs, hse, hbe⟩ := hfind text bs be s e hf
      have helen : e ≤ text.length := le_trans hbe hlen
      have hrl := removeSpan_length (le_of_lt hse) helen
      have hlen2 : be - (e - s) ≤ (removeSpan text s e).length := by
        rw [hrl]
        omega
      obtain ⟨i1, i2, i3, i4, i5⟩ := ih (removeSpan text s e) bs (be - (e - s)) true hlen2
      refine ⟨?_, ?_, ?_, ?_, ?_⟩
      · rw [i1, removeSpan_take hbs (by omega)]
      · rw [i2, removeSpan_drop (le_of_lt hse) hbe hlen]
      · omega
      · rw [hrl] at i4
        omega
      · exact i5

theorem delete_attr_occurrences_frame (text : List Char) (bs be : Nat)
    (name : List Char) (hlen : be ≤ text.length) :
    (delete_attr_occurrences text bs be name).1.take bs = text.take bs ∧
    (delete_attr_occurrences text bs be name).1.drop
      (delete_attr_occurrences text bs be name).2.1 = text.drop be ∧
    (delete_attr_occurrences text bs be name).2.1 ≤ be ∧
    (delete_attr_occurrences text bs be name).1.length + be
      = text.length + (delete_attr_occurrences text bs be name).2.1 := by
  unfold delete_attr_occurrences
  have f1 : ∀ (t : List Char) (xs xe s e : Nat),
      find_attr_braced_block t xs xe name '\x7b' '\x7d' = some (s, e) →
      xs ≤ s ∧ s < e ∧ e ≤ xe := fun _ _ _ _ _ h => find_attr_braced_block_bounds h
  have f2 : ∀ (t : List Char) (xs xe s e : Nat),
      find_attr_braced_block t xs xe name '[' ']' = some (s, e) →
      xs ≤ s ∧ s < e ∧ e ≤ xe := fun _ _ _ _ _ h => find_attr_braced_block_bounds h
  have f3 : ∀ (t : List Char) (xs xe s e : Nat),
      find_unassigned_block t xs xe name = some (s, e) →
      xs ≤ s ∧ s < e ∧ e ≤ xe := fun _ _ _ _ _ h => find_unassigned_block_bounds h
  have f4 : ∀ (t : List Char) (xs xe s e : Nat),
      find_scalar_line t xs xe name = some (s, e) →
      xs ≤ s ∧ s < e ∧ e ≤ xe := fun _ _ _ _ _ h => find_scalar_line_bounds h
  obtain ⟨a1, a2, a3, a4, a5⟩ := delLoopGen_frame _ f1 (be + 1) text bs be false hlen
  set r1 := delLoopGen (fun t s e => find_attr_braced_block t s e name '\x7b' '\x7d')
    (be + 1) text bs be false with hr1
  obtain ⟨b1, b2, b3, b4, b5⟩ := delLoopGen_frame _ f2 (r1.2.1 + 1) r1.1 bs r1.2.1 r1.2.2 a5
  set r2 := delLoopGen (fun t s e => find_attr_braced_block t s e name '[' ']')
    (r1.2.1 + 1) r1.1 bs r1.2.1 r1.2.2 with hr2
  obtain ⟨c1, c2, c3, c4, c5⟩ := delLoopGen_frame _ f3 (r2.2.1 + 1) r2.1 bs r2.2.1 r2.2.2 b5
  set r3 := delLoopGen (fun t s e => find_unassigned_block t s e name)
    (r2.2.1 + 1) r2.1 bs r2.2.1 r2.2.2 with hr3
  obtain ⟨d1, d2, d3, d4, d5⟩ := delLoopGen_frame _ f4 (r3.2.1 + 1) r3.1 bs r3.2.1 r3.2.2 c5
  set r4 := delLoopGen (fun t s e => find_scalar_line t s e name)
    (r3.2.1 + 1) r3.1 bs r3.2.1 r3.2.2 with hr4
  refine ⟨?_, ?_, ?_, ?_⟩
  · rw [d1, c1, b1, a1]
  · rw [d2, c2, b2, a2]
  · omega
  · omega

theorem take_append_left {l1 l2 : List Char} {n : Nat} (h : n ≤ l1.length) :
    (l1 ++ l2).take n = l1.take n := by
  rw [List.take_append_eq_append_take]
  have h0 : n - l1.length = 0 := by omega
  rw [h0]
  simp

theorem drop_append_right {l1 l2 : List Char} {n : Nat} (h : l1.length ≤ n) :
    (l1 ++ l2).drop n = l2.drop (n - l1.length) := by
  rw [List.drop_append_eq_append_drop]
  have h0 : l1.drop n = [] := List.drop_eq_nil_of_le h
  rw [h0]
  simp

theorem spliceChunk_frame {text chunk : List Char} {bs be : Nat}
    (hbs : bs < be) (hlen : be ≤ text.length) :
    (spliceChunk text be chunk).1.take bs = text.take bs ∧
    (spliceChunk text be chunk).1.drop (spliceChunk text be chunk).2.1 = text.drop be ∧
    be ≤ (spliceChunk text be chunk).2.1 ∧
    (spliceChunk text be chunk).1.length + be
      = text.length + (spliceChunk text be chunk).2.1 := by
  unfold spliceChunk
  have hA : (text.take (be - 1)).length = be - 1 := by
    simp only [List.length_take]
    omega
  refine ⟨?_, ?_, ?_, ?_⟩
  · show ((text.take (be - 1) ++ chunk) ++ text.drop (be - 1)).take bs = text.take bs
    rw [take_append_left (by simp only [List.length_append]; omega)]
    rw [take_append_left (by omega)]
    rw [List.take_take]
    congr 1
    omega
  · show ((text.take (be - 1) ++ chunk) ++ text.drop (be - 1)).drop (be + chunk.length)
      = text.drop be
    rw [drop_append_right (by simp only [List.length_append]; omega)]
    have h1 : be + chunk.length - (text.take (be - 1) ++ chunk).length = 1 := by
      simp only [List.length_append]
      omega
    rw [h1, List.drop_drop]
    congr 1
    omega
  · show be ≤ be + chunk.length
    omega
  · show ((text.take (be - 1) ++ chunk) ++ text.drop (be - 1)).length + be
      = text.length + (be + chunk.length)
    simp only [List.length_append, List.length_take, List.length_drop]
    omega

/-- C10: every text-patching operation is a frame-preserving edit on the
    resource span: for any file text and span, `delete_attr_occurrences`
    and each `insert_*` function leave the bytes before `block_start` and
    the bytes from the original `block_end` onward unchanged as sequences,
    and return an updated `block_end` that differs from the old one by
    exactly the number of bytes removed or inserted (equivalently, the
    length delta of the text equals the delta of `block_end`). -/
theorem text_patching_is_frame_preserving (text : List Char) (bs be : Nat)
    (name : List Char) (attr : String) (val : JVal)
    (d obj : List (String × JVal)) (arr objs : List JVal)
    (hbs : bs < be) (hlen : be ≤ text.length) :
    ((delete_attr_occurrences text bs be name).1.take bs = text.take bs ∧
     (delete_attr_occurrences text bs be name).1.drop
       (delete_attr_occurrences text bs be name).2.1 = text.drop be ∧
     (delete_attr_occurrences text bs be name).2.1 ≤ be ∧
     (delete_attr_occurrences text bs be name).1.length + be
       = text.length + (delete_attr_occurrences text bs be name).2.1) ∧
    ((insert_scalar text bs be attr val).1.take bs = text.take bs ∧
     (insert_scalar text bs be attr val).1.drop
       (insert_scalar text bs be attr val).2.1 = text.drop be ∧
     be ≤ (insert_scalar text bs be attr val).2.1 ∧
     (insert_scalar text bs be attr val).1.length + be
       = text.length + (insert_scalar text bs be attr val).2.1) ∧
    ((insert_map text bs be attr d).1.take bs = text.take bs ∧
     (insert_map text bs be attr d).1.drop
       (insert_map text bs be attr d).2.1 = text.drop be ∧
     be ≤ (insert_map text bs be attr d).2.1 ∧
     (insert_map text bs be attr d).1.length + be
       = text.length + (insert_map text bs be attr d).2.1) ∧
    ((insert_list text bs be attr arr).1.take bs = text.take bs ∧
     (insert_list text bs be attr arr).1.drop
       (insert_list text bs be attr arr).2.1 = text.drop be ∧
     be ≤ (insert_list text bs be attr arr).2.1 ∧
     (insert_list text bs be attr arr).1.length + be
       = text.length + (insert_list text bs be attr arr).2.1) ∧
    ((insert_block_object text bs be attr obj).1.take bs = text.take bs ∧
     (insert_block_object text bs be attr obj).1.drop
       (insert_block_object text bs be attr obj).2.1 = text.drop be ∧
     be ≤ (insert_block_object text bs be attr obj).2.1 ∧
     (insert_block_object text bs be attr obj).1.length + be
       = text.length + (insert_block_object text bs be attr obj).2.1) ∧
    ((insert_block_list text bs be attr objs).1.take bs = text.take bs ∧
     (insert_block_list text bs be attr objs).1.drop
       (insert_block_list text bs be attr objs).2.1 = text.drop be ∧
     be ≤ (insert_block_list text bs be attr objs).2.1 ∧
     (insert_block_list text bs be attr objs).1.length + be
       = text.length + (insert_block_list text bs be attr objs).2.1) := by
  refine ⟨delete_attr_occurrences_frame text bs be name hlen, ?_, ?_, ?_, ?_, ?_⟩
  · unfold insert_scalar
    exact spliceChunk_frame hbs hlen
  · unfold insert_map
    split
    · exact ⟨rfl, rfl, le_refl _, rfl⟩
    · exact spliceChunk_frame hbs hlen
  · unfold insert_list
    split
    · exact ⟨rfl, rfl, le_refl _, rfl⟩
    · exact spliceChunk_frame hbs hlen
  · unfold insert_block_object
    split
    · exact ⟨rfl, rfl, le_refl _, rfl⟩
    · exact spliceChunk_frame hbs hlen
  · unfold insert_block_list
    split
    · exact ⟨rfl, rfl, le_refl _, rfl⟩
    · exact spliceChunk_frame hbs hlen

/-- Witness for C10 at a concrete span. -/
theorem text_patching_is_frame_preserving_witness :
    (0 < 3 ∧ 3 ≤ "xy\x7d".toList.length) ∧
    ((delete_attr_occurrences "xy\x7d".toList 0 3 "k".toList).1.take 0
        = "xy\x7d".toList.take 0 ∧
     (delete_attr_occurrences "xy\x7d".toList 0 3 "k".toList).1.drop
       (delete_attr_occurrences "xy\x7d".toList 0 3 "k".toList).2.1
        = "xy\x7d".toList.drop 3 ∧
     (delete_attr_occurrences "xy\x7d".toList 0 3 "k".toList).2.1 ≤ 3 ∧
     (delete_attr_occurrences "xy\x7d".toList 0 3 "k".toList).1.length + 3
       = "xy\x7d".toList.length
         + (delete_attr_occurrences "xy\x7d".toList 0 3 "k".toList).2.1) ∧
    ((insert_scalar "xy\x7d".toList 0 3 "k" (jnum 1)).1.take 0
        = "xy\x7d".toList.take 0 ∧
     (insert_scalar "xy\x7d".toList 0 3 "k" (jnum 1)).1.drop
       (insert_scalar "xy\x7d".toList 0 3 "k" (jnum 1)).2.1
        = "xy\x7d".toList.drop 3 ∧
     3 ≤ (insert_scalar "xy\x7d".toList 0 3 "k" (jnum 1)).2.1 ∧
     (insert_scalar "xy\x7d".toList 0 3 "k" (jnum 1)).1.length + 3
       = "xy\x7d".toList.length
         + (insert_scalar "xy\x7d".toList 0 3 "k" (jnum 1)).2.1) ∧
    ((insert_map "xy\x7d".toList 0 3 "k" [("a", jnum 1)]).1.take 0
        = "xy\x7d".toList.take 0 ∧
     (insert_map "xy\x7d".toList 0 3 "k" [("a", jnum 1)]).1.drop
       (insert_map "xy\x7d".toList 0 3 "k" [("a", jnum 1)]).2.1
        = "xy\x7d".toList.drop 3 ∧
     3 ≤ (insert_map "xy\x7d".toList 0 3 "k" [("a", jnum 1)]).2.1 ∧
     (insert_map "xy\x7d".toList 0 3 "k" [("a", jnum 1)]).1.length + 3
       = "xy\x7d".toList.length
         + (insert_map "xy\x7d".toList 0 3 "k" [("a", jnum 1)]).2.1) ∧
    ((insert_list "xy\x7d".toList 0 3 "k" [jnum 1]).1.take 0
        = "xy\x7d".toList.take 0 ∧
     (insert_list "xy\x7d".toList 0 3 "k" [jnum 1]).1.drop
       (insert_list "xy\x7d".toList 0 3 "k" [jnum 1]).2.1
        = "xy\x7d".toList.drop 3 ∧
     3 ≤ (insert_list "xy\x7d".toList 0 3 "k" [jnum 1]).2.1 ∧
     (insert_list "xy\x7d".toList 0 3 "k" [jnum 1]).1.length + 3
       = "xy\x7d".toList.length
         + (insert_list "xy\x7d".toList 0 3 "k" [jnum 1]).2.1) ∧
    ((insert_block_object "xy\x7d".toList 0 3 "k" [("a", jnum 1)]).1.take 0
        = "xy\x7d".toList.take 0 ∧
     (insert_block_object "xy\x7d".toList 0 3 "k" [("a", jnum 1)]).1.drop
       (insert_block_object "xy\x7d".toList 0 3 "k" [("a", jnum 1)]).2.1
        = "xy\x7d".toList.drop 3 ∧
     3 ≤ (insert_block_object "xy\x7d".toList 0 3 "k" [("a", jnum 1)]).2.1 ∧
     (insert_block_object "xy\x7d".toList 0 3 "k" [("a", jnum 1)]).1.length + 3
       = "xy\x7d".toList.length
         + (insert_block_object "xy\x7d".toList 0 3 "k" [("a", jnum 1)]).2.1) ∧
    ((insert_block_list "xy\x7d".toList 0 3 "k" []).1.take 0
        = "xy\x7d".toList.take 0 ∧
     (insert_block_list "xy\x7d".toList 0 3 "k" []).1.drop
       (insert_block_list "xy\x7d".toList 0 3 "k" []).2.1
        = "xy\x7d".toList.drop 3 ∧
     3 ≤ (insert_block_list "xy\x7d".toList 0 3 "k" []).2.1 ∧
     (insert_block_list "xy\x7d".toList 0 3 "k" []).1.length + 3
       = "xy\x7d".toList.length
         + (insert_block_list "xy\x7d".toList 0 3 "k" []).2.1) :=
  ⟨⟨by decide, by decide⟩,
   (text_patching_is_frame_preserving "xy\x7d".toList 0 3 "k".toList "k" (jnum 1)
     [("a", jnum 1)] [("a", jnum 1)] [jnum 1] [] (by decide) (by decide)).1,
   (text_patching_is_frame_preserving "xy\x7d".toList 0 3 "k".toList "k" (jnum 1)
     [("a", jnum 1)] [("a", jnum 1)] [jnum 1] [] (by decide) (by decide)).2.1,
   (text_patching_is_frame_preserving "xy\x7d".toList 0 3 "k".toList "k" (jnum 1)
     [("a", jnum 1)] [("a", jnum 1)] [jnum 1] [] (by decide) (by decide)).2.2.1,
   (text_patching_is_frame_preserving "xy\x7d".toList 0 3 "k".toList "k" (jnum 1)
     [("a", jnum 1)] [("a", jnum 1)] [jnum 1] [] (by decide) (by decide)).2.2.2.1,
   (text_patching_is_frame_preserving "xy\x7d".toList 0 3 "k".toList "k" (jnum 1)
     [("a", jnum 1)] [("a", jnum 1)] [jnum 1] [] (by decide) (by decide)).2.2.2.2.1,
   (text_patching_is_frame_preserving "xy\x7d".toList 0 3 "k".toList "k" (jnum 1)
     [("a", jnum 1)] [("a", jnum 1)] [jnum 1] [] (by decide) (by decide)).2.2.2.2.2⟩

-- ---------- membership through the sorting used by the engine ----------

theorem mem_insSorted {x y : String} {l : List String} :
    y ∈ insSorted x l ↔ y = x ∨ y ∈ l := by
  induction l with
  | nil => simp [insSorted]
  | cons z zs ih =>
    unfold insSorted
    split
    · simp [List.mem_cons]
    · simp only [List.mem_cons, ih]
      tauto

theorem mem_sortStrs {y : String} {l : List String} : y ∈ sortStrs l ↔ y ∈ l := by
  induction l with
  | nil => simp [sortStrs]
  | cons x xs ih =>
    unfold sortStrs at ih ⊢
    simp only [List.foldr_cons, mem_insSorted, ih, List.mem_cons]

-- ---------- C8: computed and unknown-after keys are never planned ----------

/-- C8: a key in the fixed computed-attribute exclusion set, or whose
    unknown-after-apply flag is `True`, is never a member of the sync
    plan computed by `keys_to_sync` (and hence of the sorted key list the
    engine iterates), so the run never removes, rewrites or inserts text
    for it. -/
theorem skip_and_unknown_keys_never_planned (before after unknown : JVal) (k : String)
    (h : SKIP_ATTRS.contains k = true ∨ jGet unknown k = some (jbool true)) :
    k ∉ keys_to_sync before after unknown
      ∧ k ∉ sortStrs (keys_to_sync before after unknown) := by
  have hmain : k ∉ keys_to_sync before after unknown := by
    intro hk
    cases before with
    | jdict b =>
      cases after with
      | jdict a =>
        unfold keys_to_sync at hk
        rw [List.mem_filter] at hk
        obtain ⟨_, hpred⟩ := hk
        unfold syncKeyPred at hpred
        split at hpred
        · exact absurd hpred (by simp)
        · rename_i hskip
          split at hpred
          · exact absurd hpred (by simp)
          · rename_i hunk
            rcases h with h | h
            · exact hskip h
            · apply hunk
              have hu : pyOr unknown (jdict []) = unknown := by
                cases unknown with
                | jdict u =>
                  cases u with
                  | nil => simp [jGet, assocGet] at h
                  | cons p ps => simp [pyOr, pyTruthy]
                | jnull => simp [jGet] at h
                | jbool b0 => simp [jGet] at h
                | jnum n0 => simp [jGet] at h
                | jstr s0 => simp [jGet] at h
                | jlist l0 => simp [jGet] at h
              rw [hu, h]
      | jnull => simp [keys_to_sync] at hk
      | jbool b0 => simp [keys_to_sync] at hk
      | jnum n0 => simp [keys_to_sync] at hk
      | jstr s0 => simp [keys_to_sync] at hk
      | jlist l0 => simp [keys_to_sync] at hk
    | jnull => simp [keys_to_sync] at hk
    | jbool b0 => simp [keys_to_sync] at hk
    | jnum n0 => simp [keys_to_sync] at hk
    | jstr s0 => simp [keys_to_sync] at hk
    | jlist l0 => simp [keys_to_sync] at hk
  exact ⟨hmain, fun hs => hmain (mem_sortStrs.mp hs)⟩

/-- Witness for C8: the computed key `id` and an unknown-flagged key are
    absent from a concrete plan. -/
theorem skip_and_unknown_keys_never_planned_witness :
    (SKIP_ATTRS.contains "id" = true
      ∨ jGet (jdict []) "id" = some (jbool true)) ∧
    ("id" ∉ keys_to_sync (jdict [("id", jnum 1)]) (jdict [("id", jnum 2)]) (jdict [])
      ∧ "id" ∉ sortStrs (keys_to_sync (jdict [("id", jnum 1)])
          (jdict [("id", jnum 2)]) (jdict []))) :=
  ⟨Or.inl (by decide),
   skip_and_unknown_keys_never_planned (jdict [("id", jnum 1)])
     (jdict [("id", jnum 2)]) (jdict []) "id" (Or.inl (by decide))⟩

-- ---------- C9: unsupported value shapes ----------

-- Concrete scenario: a differing key `cfg` whose live value is a dict
-- holding a nested dict (no supported shape), while the source span has a
-- bare `cfg` block that the claim says must be removed and surfaced.
def fsUnsup : List (String × List Char) :=
  [("main.tf",
    "resource \"aws_instance\" \"web\" \x7b\n  cfg \x7b\n    a = 1\n  \x7d\n\x7d\n".toList)]

def rcUnsup : RC :=
  { rtype := "aws_instance", rname := "web", address := "aws_instance.web",
    actions := ["update"],
    before := jdict [("cfg", jdict [("nested", jdict [("x", jnum 1)])])],
    after := jdict [("cfg", jnum 2)],
    after_unknown := jdict [] }

/-- Counterexample to C9: for a differing key whose present live value
    fits no supported shape, the run removes nothing, logs nothing and
    counts nothing — the key is silently dropped from the plan (it is not
    even a member of `keys_to_sync`), contradicting the claimed
    remove-and-surface behaviour. -/
theorem unsupported_shape_silently_dropped_cex :
    (runMain [rcUnsup] fsUnsup).fs = fsUnsup ∧
    (runMain [rcUnsup] fsUnsup).logs = [] ∧
    (runMain [rcUnsup] fsUnsup).applied = 0 ∧
    keys_to_sync rcUnsup.before rcUnsup.after (jdict []) = [] := by
  refine ⟨?_, ?_, ?_, ?_⟩ <;> rfl

/-- C9 amended: a key whose live value is present (non-null) but fits
    none of the four supported shapes is excluded from `keys_to_sync`
    entirely — no removal, no rewrite and no log line happen for it; the
    engine's `REMOVE (unsupported type)` branch is unreachable from the
    plan. -/
theorem unsupported_shape_key_not_planned (b a : List (String × JVal))
    (unknown : JVal) (k : String)
    (h1 : is_scalar (assocGetD b k) = false)
    (h2 : is_object_dict (assocGetD b k) = false)
    (h3 : is_list_of_scalars (assocGetD b k) = false)
    (h4 : is_list_of_object_dicts (assocGetD b k) = false)
    (h5 : isNull (assocGetD b k) = false) :
    k ∉ keys_to_sync (jdict b) (jdict a) unknown := by
  intro hk
  unfold keys_to_sync at hk
  rw [List.mem_filter] at hk
  obtain ⟨_, hpred⟩ := hk
  unfold syncKeyPred at hpred
  split at hpred
  · exact absurd hpred (by simp)
  · split at hpred
    · exact absurd hpred (by simp)
    · split at hpred
      · exact absurd hpred (by simp)
      · split at hpred
        · rename_i hsh
          rw [h1, h2, h3, h4] at hsh
          simp at hsh
        · split at hpred
          · rename_i hnull
            rw [h5] at hnull
            simp at hnull
          · exact absurd hpred (by simp)

/-- Witness for the amended C9 at the concrete unsupported value. -/
theorem unsupported_shape_key_not_planned_witness :
    (is_scalar (assocGetD [("cfg", jdict [("nested", jdict [("x", jnum 1)])])] "cfg")
        = false ∧
     is_object_dict (assocGetD [("cfg", jdict [("nested", jdict [("x", jnum 1)])])] "cfg")
        = false ∧
     is_list_of_scalars (assocGetD [("cfg", jdict [("nested", jdict [("x", jnum 1)])])] "cfg")
        = false ∧
     is_list_of_object_dicts
        (assocGetD [("cfg", jdict [("nested", jdict [("x", jnum 1)])])] "cfg") = false ∧
     isNull (assocGetD [("cfg", jdict [("nested", jdict [("x", jnum 1)])])] "cfg")
        = false) ∧
    "cfg" ∉ keys_to_sync (jdict [("cfg", jdict [("nested", jdict [("x", jnum 1)])])])
      (jdict [("cfg", jnum 2)]) (jdict []) :=
  ⟨⟨by decide, by decide, by decide, by decide, by decide⟩,
   unsupported_shape_key_not_planned [("cfg", jdict [("nested", jdict [("x", jnum 1)])])]
     [("cfg", jnum 2)] (jdict []) "cfg"
     (by decide) (by decide) (by decide) (by decide) (by decide)⟩

-- ---------- C7: ambiguity safety ----------

/-- C7: a resource record whose (type, name) resolves to two or more
    spans is skipped whole before any edit: the filesystem and the
    `APPLIED_CHANGES` count are unchanged, and — whenever the record is
    actually processed (it has an `update` action and a non-empty sync
    plan) — the skip line naming all matching paths is logged, after
    which the run simply continues. -/
theorem ambiguous_resource_skipped (idx : List ((String × String) × List Span))
    (st : RunState) (rc : RC)
    (h : 2 ≤ (idxLookup idx (rc.rtype, rc.rname)).length) :
    (processResource idx st rc).fs = st.fs ∧
    (processResource idx st rc).applied = st.applied ∧
    (rc.actions.contains "update" = true →
      (keys_to_sync (pyOr rc.before (jdict [])) (pyOr rc.after (jdict []))
        (pyOr rc.after_unknown (jdict []))).isEmpty = false →
      (processResource idx st rc).logs = st.logs
        ++ ["SKIP " ++ rc.address ++ ": multiple code matches "
              ++ pyReprStrList ((idxLookup idx (rc.rtype, rc.rname)).map Span.path)]) := by
  by_cases hupd : rc.actions.contains "update"
  · by_cases hkeys : (keys_to_sync (pyOr rc.before (jdict [])) (pyOr rc.after (jdict []))
        (pyOr rc.after_unknown (jdict []))).isEmpty
    · have heq : processResource idx st rc = st := by
        unfold processResource
        rw [hupd]
        simp [hkeys]
      rw [heq]
      exact ⟨rfl, rfl, fun _ hf => absurd hkeys (by rw [hf]; simp)⟩
    · cases hm : idxLookup idx (rc.rtype, rc.rname) with
      | nil => rw [hm] at h; simp at h
      | cons e1 rest =>
        cases rest with
        | nil => rw [hm] at h; simp at h
        | cons e2 rest2 =>
          have heq : processResource idx st rc
              = { st with logs := st.logs
                    ++ ["SKIP " ++ rc.address ++ ": multiple code matches "
                          ++ pyReprStrList ((e1 :: e2 :: rest2).map Span.path)] } := by
            unfold processResource
            rw [hupd]
            simp only [Bool.not_true, Bool.false_eq_true, if_false]
            rw [if_neg (by simpa using hkeys)]
            rw [hm]
          rw [heq]
          exact ⟨rfl, rfl, fun _ _ => rfl⟩
  · have heq : processResource idx st rc = st := by
      unfold processResource
      rw [Bool.not_eq_true] at hupd
      rw [hupd]
      simp
    rw [heq]
    exact ⟨rfl, rfl, fun hf _ => absurd hf hupd⟩

-- Concrete ambiguity scenario: two spans for `aws_s3_bucket.logs`.
def idxAmb : List ((String × String) × List Span) :=
  [(("aws_s3_bucket", "logs"), [⟨"a.tf", 0, 10⟩, ⟨"b.tf", 0, 12⟩])]

def stAmb : RunState := ⟨[("a.tf", "x".toList)], 0, [], []⟩

def rcAmb : RC :=
  { rtype := "aws_s3_bucket", rname := "logs", address := "aws_s3_bucket.logs",
    actions := ["update"],
    before := jdict [("acl", jstr "private".toList)],
    after := jdict [("acl", jstr "public".toList)],
    after_unknown := jdict [] }

/-- Witness for C7 at the concrete two-span scenario. -/
theorem ambiguous_resource_skipped_witness :
    2 ≤ (idxLookup idxAmb (rcAmb.rtype, rcAmb.rname)).length ∧
    ((processResource idxAmb stAmb rcAmb).fs = stAmb.fs ∧
     (processResource idxAmb stAmb rcAmb).applied = stAmb.applied ∧
     (rcAmb.actions.contains "update" = true →
       (keys_to_sync (pyOr rcAmb.before (jdict [])) (pyOr rcAmb.after (jdict []))
         (pyOr rcAmb.after_unknown (jdict []))).isEmpty = false →
       (processResource idxAmb stAmb rcAmb).logs = stAmb.logs
         ++ ["SKIP " ++ rcAmb.address ++ ": multiple code matches "
               ++ pyReprStrList ((idxLookup idxAmb (rcAmb.rtype, rcAmb.rname)).map
                     Span.path)])) :=
  ⟨by decide, ambiguous_resource_skipped idxAmb stAmb rcAmb (by decide)⟩

-- ---------- C6: write discipline ----------

-- Concrete scenario: one `.tf` file holding two updated resources.
def fsTwo : List (String × List Char) :=
  [("main.tf",
    ("resource \"aws_instance\" \"a\" \x7b\n  instance_type = \"t3.micro\"\n\x7d\n"
      ++ "resource \"aws_instance\" \"b\" \x7b\n  instance_type = \"t3.micro\"\n\x7d\n").toList)]

def rcTwoA : RC :=
  { rtype := "aws_instance", rname := "a", address := "aws_instance.a",
    actions := ["update"],
    before := jdict [("instance_type", jstr "t3.large".toList)],
    after := jdict [("instance_type", jstr "t3.micro".toList)],
    after_unknown := jdict [] }

def rcTwoB : RC :=
  { rtype := "aws_instance", rname := "b", address := "aws_instance.b",
    actions := ["update"],
    before := jdict [("instance_type", jstr "t3.small".toList)],
    after := jdict [("instance_type", jstr "t3.micro".toList)],
    after_unknown := jdict [] }

set_option maxRecDepth 100000 in
/-- Counterexample to C6: with two updated resources living in the same
    file, the run writes `main.tf` twice — once per resource — because
    each resource re-reads the file from the filesystem and flushes its
    own edits; the second resource's recorded span is then applied
    against text already changed on disk by the first. -/
theorem file_rewritten_twice_cex :
    (runMain [rcTwoA, rcTwoB] fsTwo).writes = ["main.tf", "main.tf"] ∧
    (runMain [rcTwoA, rcTwoB] fsTwo).applied = 2 := by
  exact ⟨rfl, rfl⟩

/-- C6 amended: edits are flushed once per resource, not once per file —
    each processed resource record performs at most one file write (its
    matched path), so a file holding `n` changed resources is written `n`
    times during the run, with later resources' spans resolved against
    offsets recorded before the earlier writes. -/
theorem file_written_once_per_changed_resource
    (idx : List ((String × String) × List Span)) (st : RunState) (rc : RC) :
    (processResource idx st rc).writes = st.writes ∨
    ∃ p, (processResource idx st rc).writes = st.writes ++ [p] := by
  by_cases hupd : rc.actions.contains "update" = true
  · by_cases hkeys : (keys_to_sync (pyOr rc.before (jdict [])) (pyOr rc.after (jdict []))
        (pyOr rc.after_unknown (jdict []))).isEmpty = true
    · left
      rw [processResource_keys_empty hupd hkeys]
    · rw [Bool.not_eq_true] at hkeys
      cases hm : idxLookup idx (rc.rtype, rc.rname) with
      | nil =>
        left
        rw [processResource_not_found hupd hkeys hm]
      | cons e1 rest =>
        cases rest with
        | cons e2 rest2 =>
          left
          rw [processResource_multi hupd hkeys hm]
        | nil =>
          rw [processResource_single hupd hkeys hm]
          cases hr : fsRead st.fs e1.path with
          | none =>
            left
            rw [processEntry_read_none hr]
          | some text =>
            rw [processEntry_read_some hr]
            split
            · right
              exact ⟨e1.path, rfl⟩
            · left
              rfl
  · left
    rw [Bool.not_eq_true] at hupd
    rw [processResource_no_update hupd]

-- ---------- C1: the expression guard is never applied ----------

-- Scenario C of the spec: a scalar line whose right-hand side is a
-- module reference.
def tExpr : List Char :=
  "resource \"aws_instance\" \"web\" \x7b\n  subnet_id = module.vpc.subnet_id\n\x7d\n".toList

/-- C1 is violated by the code: `looks_like_expression` is defined but
    never called, so the removal step deletes a scalar line whose
    right-hand side carries an expression marker instead of leaving it
    byte-for-byte untouched; the lazy `.+?` in the deletion pattern even
    strips only the first byte of the right-hand side, leaving the
    remnant `odule.vpc.subnet_id` behind.  No skip is reported. -/
theorem expression_guard_never_applied :
    looks_like_expression "module.vpc.subnet_id".toList = true ∧
    (delete_attr_occurrences tExpr 0 68 "subnet_id".toList).2.2 = true ∧
    (delete_attr_occurrences tExpr 0 68 "subnet_id".toList).1
      = "resource \"aws_instance\" \"web\" \x7b\nodule.vpc.subnet_id\n\x7d\n".toList ∧
    containsL (delete_attr_occurrences tExpr 0 68 "subnet_id".toList).1
      "  subnet_id = module.vpc.subnet_id\n".toList = false := by
  exact ⟨rfl, rfl, rfl, rfl⟩

-- ---------- C2: map-like names are not rendered as map assignments ----------

-- Scenario A of the spec.
def fsScnA : List (String × List Char) :=
  [("main.tf",
    ("resource \"aws_instance\" \"web\" \x7b\n  instance_type = \"t3.micro\"\n"
      ++ "  tags = \x7b\n    env = \"dev\"\n  \x7d\n\x7d\n").toList)]

def rcScnA : RC :=
  { rtype := "aws_instance", rname := "web", address := "aws_instance.web",
    actions := ["update"],
    before := jdict [("instance_type", jstr "t3.large".toList),
                     ("tags", jdict [("env", jstr "prod".toList)])],
    after := jdict [("instance_type", jstr "t3.micro".toList),
                    ("tags", jdict [("env", jstr "dev".toList)])],
    after_unknown := jdict [] }

set_option maxRecDepth 100000 in
/-- C2 is violated by the code: in Scenario A the live `tags` value is a
    dict of scalars, so the `is_object_dict` branch of `main` fires
    before the map-name heuristic is ever consulted, rendering a bare
    `tags \x7b ... \x7d` block and logging `SYNC tags (block)` — not the
    claimed `tags = \x7b ... \x7d` assignment with `SYNC tags (map)`. -/
theorem tags_rendered_as_bare_block :
    (runMain [rcScnA] fsScnA).logs
      = ["aws_instance.web: SYNC instance_type (scalar)",
         "aws_instance.web: SYNC tags (block)"] ∧
    fsRead (runMain [rcScnA] fsScnA).fs "main.tf"
      = some ("resource \"aws_instance\" \"web\" \x7b\nt3.micro\"\n\n\n"
          ++ "  instance_type = \"t3.large\"\n\n  tags \x7b\n    env = \"prod\"\n"
          ++ "  \x7d\n\x7d\n").toList ∧
    containsL (("resource \"aws_instance\" \"web\" \x7b\nt3.micro\"\n\n\n"
          ++ "  instance_type = \"t3.large\"\n\n  tags \x7b\n    env = \"prod\"\n"
          ++ "  \x7d\n\x7d\n").toList) "tags = \x7b".toList = false ∧
    containsL (("resource \"aws_instance\" \"web\" \x7b\nt3.micro\"\n\n\n"
          ++ "  instance_type = \"t3.large\"\n\n  tags \x7b\n    env = \"prod\"\n"
          ++ "  \x7d\n\x7d\n").toList) "tags \x7b".toList = true := by
  exact ⟨rfl, rfl, rfl, rfl⟩

-- ---------- C3: the single-definition invariant can be broken ----------

-- A resource span whose `cfg` attribute line textually precedes a brace
-- group on the same line.
def tDup : List Char :=
  "resource \"aws_instance\" \"web\" \x7b\n  cfg = xcfg \x7b\n    a = 1\n  \x7d\n\x7d\n".toList

def dupDel : List Char × Nat × Bool := delete_attr_occurrences tDup 0 62 "cfg".toList

def dupIns : List Char × Nat × Bool :=
  insert_scalar dupDel.1 0 dupDel.2.1 "cfg" (jstr "v".toList)

/-- C3 is violated by the code: the lazy `.+?` of the scalar-deletion
    pattern removes only `  cfg = x` from `  cfg = xcfg \x7b ... \x7d`,
    uncovering a bare `cfg \x7b ... \x7d` block at the start of the line
    AFTER the block-deletion loop has already run; the subsequent
    insertion then adds a second definition, so the resource span ends up
    with two textual definitions of `cfg` (a surviving block and the
    inserted scalar). -/
theorem duplicate_definition_after_sync :
    find_unassigned_block dupIns.1 0 dupIns.2.1 "cfg".toList = some (32, 51) ∧
    containsL dupIns.1 "cfg \x7b".toList = true ∧
    containsL dupIns.1 "  cfg = \"v\"\n".toList = true ∧
    dupIns.1 = ("resource \"aws_instance\" \"web\" \x7b\ncfg \x7b\n    a = 1\n  \x7d\n"
        ++ "\n  cfg = \"v\"\n\x7d\n").toList := by
  exact ⟨rfl, rfl, rfl, rfl⟩

-- ---------- C4: the run is not idempotent ----------

def fsIdem : List (String × List Char) :=
  [("main.tf",
    "resource \"aws_instance\" \"web\" \x7b\n  instance_type = \"t3.micro\"\n\x7d\n".toList)]

def rcIdem : RC :=
  { rtype := "aws_instance", rname := "web", address := "aws_instance.web",
    actions := ["update"],
    before := jdict [("instance_type", jstr "t3.large".toList)],
    after := jdict [("instance_type", jstr "t3.micro".toList)],
    after_unknown := jdict [] }

set_option maxRecDepth 100000 in
/-- C4 is violated by the code: running the same change-set a second time
    against the first run's output edits the file again — the deletion of
    the already-canonical line leaves the remnant `t3.large"` (lazy
    `.+?`), and the re-insertion adds another leading blank line — so the
    second run's file text differs from the first run's and the file is
    written again, although `APPLIED_CHANGES` is 1 both times. -/
theorem second_run_edits_again :
    (runMain [rcIdem] fsIdem).applied = 1 ∧
    (runMain [rcIdem] (runMain [rcIdem] fsIdem).fs).applied = 1 ∧
    (runMain [rcIdem] (runMain [rcIdem] fsIdem).fs).writes = ["main.tf"] ∧
    fsRead (runMain [rcIdem] fsIdem).fs "main.tf"
      = some ("resource \"aws_instance\" \"web\" \x7b\nt3.micro\"\n\n"
          ++ "  instance_type = \"t3.large\"\n\x7d\n").toList ∧
    fsRead (runMain [rcIdem] (runMain [rcIdem] fsIdem).fs).fs "main.tf"
      = some ("resource \"aws_instance\" \"web\" \x7b\nt3.micro\"\n\nt3.large\"\n\n"
          ++ "  instance_type = \"t3.large\"\n\x7d\n").toList ∧
    (runMain [rcIdem] (runMain [rcIdem] fsIdem).fs).fs ≠ (runMain [rcIdem] fsIdem).fs := by
  refine ⟨rfl, rfl, rfl, rfl, rfl, ?_⟩
  intro h
  have h2 := congrArg (fun fs => fsRead fs "main.tf") h
  simp only [] at h2
  rw [show fsRead (runMain [rcIdem] (runMain [rcIdem] fsIdem).fs).fs "main.tf"
      = some ("resource \"aws_instance\" \"web\" \x7b\nt3.micro\"\n\nt3.large\"\n\n"
          ++ "  instance_type = \"t3.large\"\n\x7d\n").toList from rfl] at h2
  rw [show fsRead (runMain [rcIdem] fsIdem).fs "main.tf"
      = some ("resource \"aws_instance\" \"web\" \x7b\nt3.micro\"\n\n"
          ++ "  instance_type = \"t3.large\"\n\x7d\n").toList from rfl] at h2
  exact absurd h2 (by decide)

-- ---------- C5: empty-value deletions are not persisted ----------

def fsEmptyList : List (String × List Char) :=
  [("main.tf",
    "resource \"aws_instance\" \"web\" \x7b\n  security_groups = [\"sg-1\"]\n\x7d\n".toList)]

def rcEmptyList : RC :=
  { rtype := "aws_instance", rname := "web", address := "aws_instance.web",
    actions := ["update"],
    before := jdict [("security_groups", jlist [])],
    after := jdict [("security_groups", jlist [jstr "sg-1".toList])],
    after_unknown := jdict [] }

set_option maxRecDepth 100000 in
/-- C5 is violated by the code: when the live value is an empty list the
    attribute's occurrences ARE deleted in the in-memory buffer (the
    deletion's change flag is `true`), but `main` discards that flag and
    the empty-list insertion reports no change, so when the removal is
    the resource's only action `any_changed` stays false: the file is
    never written, the change is not counted, and the log even claims a
    sync happened. -/
theorem empty_list_removal_not_persisted :
    (delete_attr_occurrences
      ("resource \"aws_instance\" \"web\" \x7b\n  security_groups = [\"sg-1\"]\n\x7d\n".toList)
      0 62 "security_groups".toList).2.2 = true ∧
    (runMain [rcEmptyList] fsEmptyList).fs = fsEmptyList ∧
    (runMain [rcEmptyList] fsEmptyList).applied = 0 ∧
    (runMain [rcEmptyList] fsEmptyList).writes = [] ∧
    (runMain [rcEmptyList] fsEmptyList).logs
      = ["aws_instance.web: SYNC security_groups (blocks list)"] := by
  exact ⟨rfl, rfl, rfl, rfl, rfl⟩
